import Mathlib

/-!
Verification development for the adalanche object-graph and privilege-edge
inference engine (`main.go`).  Definitions are shallow embeddings of the
source; parts of the repository whose code is not in the provided sources
(object store, security-descriptor decoder internals, membership resolver
internals) are modelled from the specification and marked as such in their
doc comments.
-/

set_option autoImplicit false

namespace Adalanche

/-! ## Analyzer framework (evaluation loop, `main.go` lines 517-539)

Objects are referred to by numeric ids (the Go code uses pointers).  The
SID of an object does not change during the evaluation pass, so the pass is
parameterised by `sidOf : Nat → String`; an absent SID is the empty string.
The mutable per-object edge lists `CanPwn` / `PwnableBy` form the pass
state. -/

/-- One can-pwn edge annotation, mirroring Go `PwnInfo{Method, Target}`.
`Method` is the numeric tag of the pwn method, `Target` the id of the
referenced counterpart object. -/
structure PwnInfo where
  Method : Nat
  Target : Nat
deriving DecidableEq, Repr

/-- State of the evaluation pass: for each object id, its `CanPwn` and
`PwnableBy` edge lists (append-only in the source). -/
structure AState where
  CanPwn : Nat → List PwnInfo
  PwnableBy : Nat → List PwnInfo

/-- Initial state: no edges recorded on any object (the loop in `main.go`
is the only writer of these lists). -/
def initState : AState where
  CanPwn := fun _ => []
  PwnableBy := fun _ => []

/-- Modelled from the spec: the well-known Self principal SID (exempt as an
emitted counterpart).  The binary constant lives outside the provided
sources; string rendering is used for SIDs throughout. -/
def SelfSID : String := "S-1-5-10"

/-- Modelled from the spec: the well-known Creator-Owner principal SID. -/
def CreatorOwnerSID : String := "S-1-3-0"

/-- Modelled from the spec: the well-known System principal SID. -/
def SystemSID : String := "S-1-5-18"

/-- The unconditional append performed at `main.go:533-534`: the emitted
counterpart `pid` gets `(m, oid)` appended to its `CanPwn`, the analyzed
object `oid` gets `(m, pid)` appended to its `PwnableBy`. -/
def appendEdge (m oid pid : Nat) (st : AState) : AState where
  CanPwn := fun i => if i = pid then st.CanPwn i ++ [⟨m, oid⟩] else st.CanPwn i
  PwnableBy := fun i => if i = oid then st.PwnableBy i ++ [⟨m, pid⟩] else st.PwnableBy i

/-- Body of the innermost loop at `main.go:522-535`: given analyzed object
`oid` and emitted counterpart `pid`, skip on self-own (`pwnobject == object
|| pwnobject.SID() == object.SID()`), skip when the counterpart's SID is
Self / Creator-Owner / System, otherwise record the edge pair. -/
def processCounterpart (sidOf : Nat → String) (m oid pid : Nat) (st : AState) : AState :=
  if pid = oid ∨ sidOf pid = sidOf oid then st
  else if sidOf pid = SelfSID ∨ sidOf pid = CreatorOwnerSID ∨ sidOf pid = SystemSID then st
  else appendEdge m oid pid st

/-- Inner loop over the counterparts emitted by one analyzer for `oid`. -/
def runCounterparts (sidOf : Nat → String) (m oid : Nat) (ps : List Nat) (st : AState) : AState :=
  ps.foldl (fun s p => processCounterpart sidOf m oid p s) st

/-- An analyzer as seen by the evaluation loop: a method tag plus the
`ObjectAnalyzer` function from object id to emitted counterpart ids. -/
abbrev PwnAnalyzerF := Nat × (Nat → List Nat)

/-- Middle loop: run every registered analyzer against object `oid`, in
registration order. -/
def runAnalyzers (sidOf : Nat → String) (as : List PwnAnalyzerF) (oid : Nat) (st : AState) : AState :=
  as.foldl (fun s a => runCounterparts sidOf a.1 oid (a.2 oid) s) st

/-- Outer loop (`for _, object := range AllObjects.AsArray()`): the whole
evaluation pass over the enumerated object ids. -/
def evaluationPass (sidOf : Nat → String) (as : List PwnAnalyzerF) (oids : List Nat) (st : AState) : AState :=
  oids.foldl (fun s o => runAnalyzers sidOf as o s) st

/-! ### Generic preservation machinery -/

theorem foldl_preserves {α β : Type} (P : α → Prop) (f : α → β → α)
    (h : ∀ s b, P s → P (f s b)) : ∀ (l : List β) (s : α), P s → P (l.foldl f s) := by
  intro l
  induction l with
  | nil => intro s hs; simpa using hs
  | cons x xs ih => intro s hs; simpa using ih (f s x) (h s x hs)

theorem mem_appendEdge_CanPwn {m oid pid : Nat} {st : AState} {i : Nat} {e : PwnInfo} :
    e ∈ (appendEdge m oid pid st).CanPwn i ↔ e ∈ st.CanPwn i ∨ (i = pid ∧ e = ⟨m, oid⟩) := by
  simp only [appendEdge]
  by_cases h : i = pid <;> simp [h]

theorem mem_appendEdge_PwnableBy {m oid pid : Nat} {st : AState} {i : Nat} {e : PwnInfo} :
    e ∈ (appendEdge m oid pid st).PwnableBy i ↔ e ∈ st.PwnableBy i ∨ (i = oid ∧ e = ⟨m, pid⟩) := by
  simp only [appendEdge]
  by_cases h : i = oid <;> simp [h]

/-- Either the counterpart is skipped (state unchanged) or all three skip
conditions fail and the edge pair is appended. -/
theorem processCounterpart_cases (sidOf : Nat → String) (m oid pid : Nat) (st : AState) :
    processCounterpart sidOf m oid pid st = st ∨
    (pid ≠ oid ∧ sidOf pid ≠ sidOf oid ∧
      sidOf pid ≠ SelfSID ∧ sidOf pid ≠ CreatorOwnerSID ∧ sidOf pid ≠ SystemSID ∧
      processCounterpart sidOf m oid pid st = appendEdge m oid pid st) := by
  unfold processCounterpart
  by_cases h1 : pid = oid ∨ sidOf pid = sidOf oid
  · exact Or.inl (by simp [h1])
  · by_cases h2 : sidOf pid = SelfSID ∨ sidOf pid = CreatorOwnerSID ∨ sidOf pid = SystemSID
    · exact Or.inl (by simp [h1, h2])
    · push_neg at h1 h2
      exact Or.inr ⟨h1.1, h1.2, h2.1, h2.2.1, h2.2.2, by simp [h1, h2]⟩

/-! ### Edge invariants preserved by the pass -/

/-- Every `CanPwn` entry has the matching reverse `PwnableBy` entry and
conversely (spec §8, edge-symmetry invariant). -/
def EdgeSymmetric (st : AState) : Prop :=
  (∀ s e, e ∈ st.CanPwn s → PwnInfo.mk e.Method s ∈ st.PwnableBy e.Target) ∧
  (∀ t e, e ∈ st.PwnableBy t → PwnInfo.mk e.Method t ∈ st.CanPwn e.Target)

/-- No recorded edge joins two endpoints with the same SID (nor one object
to itself). -/
def NoEqualSIDEdges (sidOf : Nat → String) (st : AState) : Prop :=
  (∀ i e, e ∈ st.CanPwn i → sidOf i ≠ sidOf e.Target ∧ i ≠ e.Target) ∧
  (∀ i e, e ∈ st.PwnableBy i → sidOf i ≠ sidOf e.Target ∧ i ≠ e.Target)

/-- A SID belonging to one of the exempt well-known principals. -/
def isExemptSID (s : String) : Prop :=
  s = SelfSID ∨ s = CreatorOwnerSID ∨ s = SystemSID

instance (s : String) : Decidable (isExemptSID s) := by
  unfold isExemptSID; infer_instance

/-- The emitted counterpart of a recorded edge is never an exempt
principal: an exempt-SID object never receives a `CanPwn` entry, and no
`PwnableBy` entry points at an exempt-SID object. -/
def NoExemptCounterpart (sidOf : Nat → String) (st : AState) : Prop :=
  (∀ i, isExemptSID (sidOf i) → st.CanPwn i = []) ∧
  (∀ i e, e ∈ st.PwnableBy i → ¬ isExemptSID (sidOf e.Target))

theorem processCounterpart_symm (sidOf : Nat → String) (m oid pid : Nat) (st : AState)
    (h : EdgeSymmetric st) : EdgeSymmetric (processCounterpart sidOf m oid pid st) := by
  rcases processCounterpart_cases sidOf m oid pid st with heq | ⟨_, _, _, _, _, heq⟩
  · rwa [heq]
  · rw [heq]
    constructor
    · intro s e he
      rcases mem_appendEdge_CanPwn.mp he with he | ⟨rfl, rfl⟩
      · exact mem_appendEdge_PwnableBy.mpr (Or.inl (h.1 s e he))
      · exact mem_appendEdge_PwnableBy.mpr (Or.inr ⟨rfl, rfl⟩)
    · intro t e he
      rcases mem_appendEdge_PwnableBy.mp he with he | ⟨rfl, rfl⟩
      · exact mem_appendEdge_CanPwn.mpr (Or.inl (h.2 t e he))
      · exact mem_appendEdge_CanPwn.mpr (Or.inr ⟨rfl, rfl⟩)

theorem processCounterpart_noEqual (sidOf : Nat → String) (m oid pid : Nat) (st : AState)
    (h : NoEqualSIDEdges sidOf st) : NoEqualSIDEdges sidOf (processCounterpart sidOf m oid pid st) := by
  rcases processCounterpart_cases sidOf m oid pid st with heq | ⟨hne, hsid, _, _, _, heq⟩
  · rwa [heq]
  · rw [heq]
    constructor
    · intro i e he
      rcases mem_appendEdge_CanPwn.mp he with he | ⟨rfl, rfl⟩
      · exact h.1 i e he
      · exact ⟨hsid, hne⟩
    · intro i e he
      rcases mem_appendEdge_PwnableBy.mp he with he | ⟨rfl, rfl⟩
      · exact h.2 i e he
      · exact ⟨fun hc => hsid hc.symm, fun hc => hne hc.symm⟩

theorem processCounterpart_noExempt (sidOf : Nat → String) (m oid pid : Nat) (st : AState)
    (h : NoExemptCounterpart sidOf st) :
    NoExemptCounterpart sidOf (processCounterpart sidOf m oid pid st) := by
  rcases processCounterpart_cases sidOf m oid pid st with heq | ⟨_, _, h1, h2, h3, heq⟩
  · rwa [heq]
  · rw [heq]
    constructor
    · intro i hex
      have hipid : i ≠ pid := by
        rintro rfl
        rcases hex with hx | hx | hx
        exacts [h1 hx, h2 hx, h3 hx]
      simpa [appendEdge, hipid] using h.1 i hex
    · intro i e he
      rcases mem_appendEdge_PwnableBy.mp he with he | ⟨rfl, rfl⟩
      · exact h.2 i e he
      · rintro (hx | hx | hx)
        exacts [h1 hx, h2 hx, h3 hx]

/-- An invariant preserved by every single counterpart step is preserved by
the whole evaluation pass. -/
theorem evaluationPass_preserves (sidOf : Nat → String) (P : AState → Prop)
    (hstep : ∀ m oid pid st, P st → P (processCounterpart sidOf m oid pid st))
    (as : List PwnAnalyzerF) (oids : List Nat) (st : AState)
    (h : P st) : P (evaluationPass sidOf as oids st) := by
  refine foldl_preserves P _ (fun s o hs => ?_) oids st h
  refine foldl_preserves P _ (fun s' a hs' => ?_) as s hs
  exact foldl_preserves P _ (fun s'' p hs'' => hstep a.1 o p s'' hs'') (a.2 o) s' hs'

theorem evaluationPass_symm (sidOf : Nat → String) (as : List PwnAnalyzerF) (oids : List Nat) :
    EdgeSymmetric (evaluationPass sidOf as oids initState) :=
  evaluationPass_preserves sidOf EdgeSymmetric
    (fun m o p st h => processCounterpart_symm sidOf m o p st h) as oids initState
    ⟨fun s e he => by simp [initState] at he, fun t e he => by simp [initState] at he⟩

theorem evaluationPass_noEqual (sidOf : Nat → String) (as : List PwnAnalyzerF) (oids : List Nat) :
    NoEqualSIDEdges sidOf (evaluationPass sidOf as oids initState) :=
  evaluationPass_preserves sidOf (NoEqualSIDEdges sidOf)
    (fun m o p st h => processCounterpart_noEqual sidOf m o p st h) as oids initState
    ⟨fun i e he => by simp [initState] at he, fun i e he => by simp [initState] at he⟩

theorem evaluationPass_noExempt (sidOf : Nat → String) (as : List PwnAnalyzerF) (oids : List Nat) :
    NoExemptCounterpart sidOf (evaluationPass sidOf as oids initState) :=
  evaluationPass_preserves sidOf (NoExemptCounterpart sidOf)
    (fun m o p st h => processCounterpart_noExempt sidOf m o p st h) as oids initState
    ⟨fun i _ => rfl, fun i e he => by simp [initState] at he⟩

/-! ### Concrete demonstration scenarios -/

/-- Demo SID assignment: object 0 carries SID "S-A", every other id "S-B". -/
def demoSidOf : Nat → String := fun i => if i = 0 then "S-A" else "S-B"

/-- Demo analyzer registry: one analyzer with method tag 7 that emits
counterpart 1 when analyzing object 0 and nothing otherwise. -/
def demoAnalyzers : List PwnAnalyzerF := [(7, fun o => if o = 0 then [1] else [])]

/-- Result of the evaluation pass on the demo scenario. -/
def demoPass : AState := evaluationPass demoSidOf demoAnalyzers [0] initState

/-- SID assignment where object 0 is the well-known System principal. -/
def sysSidOf : Nat → String := fun i => if i = 0 then SystemSID else "S-1-5-21-1001"

/-- Evaluation pass in which the analyzed object 0 is the System principal
and the analyzer emits the ordinary principal 1 as counterpart. -/
def sysPass : AState := evaluationPass sysSidOf demoAnalyzers [0] initState

/-! ## Claim C1 -/

/-- Claim C1 as stated is false: in the demo scenario the analyzer emits
counterpart 1 for object 0 and the counterpart is not skipped (the edge
pair is recorded), yet `(7, 1)` is not appended to object 0's `CanPwn` and
`(7, 0)` is not appended to counterpart 1's `PwnableBy`; the source
(`main.go:533-534`) appends in the opposite direction. -/
theorem c1_counterexample :
    demoPass.CanPwn 1 = [⟨7, 0⟩] ∧ demoPass.PwnableBy 0 = [⟨7, 1⟩] ∧
    PwnInfo.mk 7 1 ∉ demoPass.CanPwn 0 ∧ PwnInfo.mk 7 0 ∉ demoPass.PwnableBy 1 := by
  decide

/-- Claim C1 amended: for every counterpart `pid` emitted for analyzed
object `oid` that is not skipped, the framework appends `(method, oid)` to
the counterpart's `CanPwn` and `(method, pid)` to the analyzed object's
`PwnableBy` (leaving all other edge lists unchanged): an analyzer returns
the objects that can control the analyzed object. -/
theorem c1_amended_append (sidOf : Nat → String) (m oid pid : Nat) (st : AState)
    (h1 : pid ≠ oid) (h2 : sidOf pid ≠ sidOf oid) (h3 : ¬ isExemptSID (sidOf pid)) :
    (processCounterpart sidOf m oid pid st).CanPwn pid = st.CanPwn pid ++ [⟨m, oid⟩] ∧
    (processCounterpart sidOf m oid pid st).PwnableBy oid = st.PwnableBy oid ++ [⟨m, pid⟩] ∧
    (∀ j, j ≠ pid → (processCounterpart sidOf m oid pid st).CanPwn j = st.CanPwn j) ∧
    (∀ j, j ≠ oid → (processCounterpart sidOf m oid pid st).PwnableBy j = st.PwnableBy j) := by
  unfold isExemptSID at h3
  rw [processCounterpart, if_neg (not_or.mpr ⟨h1, h2⟩), if_neg h3]
  refine ⟨by simp [appendEdge], by simp [appendEdge], ?_, ?_⟩
  · intro j hj; simp [appendEdge, hj]
  · intro j hj; simp [appendEdge, hj]

/-- Witness for the amended C1 at a concrete non-skipped counterpart. -/
theorem c1_amended_append_witness :
    (processCounterpart demoSidOf 7 0 1 initState).CanPwn 1 = initState.CanPwn 1 ++ [⟨7, 0⟩] ∧
    (processCounterpart demoSidOf 7 0 1 initState).PwnableBy 0 = initState.PwnableBy 0 ++ [⟨7, 1⟩] :=
  ⟨(c1_amended_append demoSidOf 7 0 1 initState (by decide) (by decide) (by decide)).1,
   (c1_amended_append demoSidOf 7 0 1 initState (by decide) (by decide) (by decide)).2.1⟩

/-! ## Claim C2 -/

/-- Claim C2 as stated is false: when the analyzed object itself is the
System principal and an ordinary principal is emitted as counterpart, the
framework records the edge, so counterpart 1's `CanPwn` holds an entry
whose `Target` (the controlled endpoint) resolves to the System SID. -/
theorem c2_counterexample :
    PwnInfo.mk 7 0 ∈ sysPass.CanPwn 1 ∧ sysSidOf (PwnInfo.mk 7 0).Target = SystemSID := by
  decide

/-- Claim C2 amended: the skip at `main.go:528-531` checks the emitted
counterpart (the controlling endpoint), not the controlled one: after the
pass no object whose SID is Self, Creator-Owner or System has any `CanPwn`
entry, and no `PwnableBy` entry's `Target` resolves to one of those SIDs. -/
theorem c2_amended_no_exempt_counterpart (sidOf : Nat → String) (as : List PwnAnalyzerF)
    (oids : List Nat) :
    (∀ i, isExemptSID (sidOf i) → (evaluationPass sidOf as oids initState).CanPwn i = []) ∧
    (∀ i e, e ∈ (evaluationPass sidOf as oids initState).PwnableBy i →
      ¬ isExemptSID (sidOf e.Target)) :=
  evaluationPass_noExempt sidOf as oids

/-- Witness for the amended C2 on the System-object scenario. -/
theorem c2_amended_no_exempt_counterpart_witness :
    sysPass.CanPwn 0 = [] ∧ ¬ isExemptSID (sysSidOf (PwnInfo.mk 7 1).Target) :=
  ⟨(c2_amended_no_exempt_counterpart sysSidOf demoAnalyzers [0]).1 0 (by decide),
   (c2_amended_no_exempt_counterpart sysSidOf demoAnalyzers [0]).2 0 ⟨7, 1⟩ (by decide)⟩

/-! ## Claim C3 -/

/-- Claim C3: edge symmetry after the evaluation pass — every `CanPwn`
entry `(m, T)` on `S` is matched by `(m, S)` in `T`'s `PwnableBy`, and
conversely, because `main.go:533-534` always appends the two halves of an
edge together. -/
theorem c3_edge_symmetry (sidOf : Nat → String) (as : List PwnAnalyzerF) (oids : List Nat) :
    (∀ s e, e ∈ (evaluationPass sidOf as oids initState).CanPwn s →
      PwnInfo.mk e.Method s ∈ (evaluationPass sidOf as oids initState).PwnableBy e.Target) ∧
    (∀ t e, e ∈ (evaluationPass sidOf as oids initState).PwnableBy t →
      PwnInfo.mk e.Method t ∈ (evaluationPass sidOf as oids initState).CanPwn e.Target) :=
  evaluationPass_symm sidOf as oids

/-- Witness for C3 on the demo scenario's recorded edge. -/
theorem c3_edge_symmetry_witness :
    PwnInfo.mk 7 1 ∈ demoPass.PwnableBy 0 ∧ PwnInfo.mk 7 0 ∈ demoPass.CanPwn 1 :=
  ⟨(c3_edge_symmetry demoSidOf demoAnalyzers [0]).1 1 ⟨7, 0⟩ (by decide),
   (c3_edge_symmetry demoSidOf demoAnalyzers [0]).2 0 ⟨7, 1⟩ (by decide)⟩

/-! ## Claim C4 -/

/-- Claim C4: for any two object ids `A` and `B` carrying the same SID
(including two distinct objects of a merged multi-domain load, and `A = B`
itself), the evaluation pass never records a `CanPwn` or `PwnableBy` entry
between them — the equal-SID skip at `main.go:523` drops every such
counterpart. -/
theorem c4_no_equal_sid_edges (sidOf : Nat → String) (as : List PwnAnalyzerF) (oids : List Nat)
    (A B : Nat) (hAB : sidOf A = sidOf B) :
    (∀ e, e ∈ (evaluationPass sidOf as oids initState).CanPwn A → e.Target ≠ B) ∧
    (∀ e, e ∈ (evaluationPass sidOf as oids initState).CanPwn B → e.Target ≠ A) ∧
    (∀ e, e ∈ (evaluationPass sidOf as oids initState).PwnableBy A → e.Target ≠ B) ∧
    (∀ e, e ∈ (evaluationPass sidOf as oids initState).PwnableBy B → e.Target ≠ A) := by
  have h := evaluationPass_noEqual sidOf as oids
  refine ⟨fun e he hc => ?_, fun e he hc => ?_, fun e he hc => ?_, fun e he hc => ?_⟩
  · exact (h.1 A e he).1 (by rw [hAB, ← hc])
  · exact (h.1 B e he).1 (by rw [← hAB, ← hc])
  · exact (h.2 A e he).1 (by rw [hAB, ← hc])
  · exact (h.2 B e he).1 (by rw [← hAB, ← hc])

/-- SID assignment where objects 0 and 1 share one SID, as in a merged
multi-domain load. -/
def dupSidOf : Nat → String := fun i => if i ≤ 1 then "S-DUP" else "S-OTHER"

/-- Witness for C4: objects 0 and 1 share a SID, so no counterpart between
them survives the skip. -/
theorem c4_no_equal_sid_edges_witness :
    dupSidOf 0 = dupSidOf 1 ∧
    (∀ e, e ∈ (evaluationPass dupSidOf demoAnalyzers [0] initState).CanPwn 0 → e.Target ≠ 1) :=
  ⟨by decide, (c4_no_equal_sid_edges dupSidOf demoAnalyzers [0] 0 1 (by decide)).1⟩

/-! ## Claim C9 -/

/-- Claim C9: two distinct objects that both lack a SID (modelled as the
empty string, as for `objectSid`-less entries) never get an edge between
them, because the equal-SID self-own comparison at `main.go:523` also
matches two absent SIDs. -/
theorem c9_absent_sid_no_edges (sidOf : Nat → String) (as : List PwnAnalyzerF) (oids : List Nat)
    (a b : Nat) (_hab : a ≠ b) (ha : sidOf a = "") (hb : sidOf b = "") :
    (∀ e, e ∈ (evaluationPass sidOf as oids initState).CanPwn a → e.Target ≠ b) ∧
    (∀ e, e ∈ (evaluationPass sidOf as oids initState).CanPwn b → e.Target ≠ a) ∧
    (∀ e, e ∈ (evaluationPass sidOf as oids initState).PwnableBy a → e.Target ≠ b) ∧
    (∀ e, e ∈ (evaluationPass sidOf as oids initState).PwnableBy b → e.Target ≠ a) := by
  have h := evaluationPass_noEqual sidOf as oids
  refine ⟨fun e he hc => ?_, fun e he hc => ?_, fun e he hc => ?_, fun e he hc => ?_⟩
  · exact (h.1 a e he).1 (by rw [ha, hc, hb])
  · exact (h.1 b e he).1 (by rw [hb, hc, ha])
  · exact (h.2 a e he).1 (by rw [ha, hc, hb])
  · exact (h.2 b e he).1 (by rw [hb, hc, ha])

/-- SID assignment where objects 0 and 1 both lack a SID. -/
def noSidOf : Nat → String := fun i => if i ≤ 1 then "" else "S-OTHER"

/-- Witness for C9 on two concrete SID-less objects. -/
theorem c9_absent_sid_no_edges_witness :
    (0 : Nat) ≠ 1 ∧
    (∀ e, e ∈ (evaluationPass noSidOf demoAnalyzers [0] initState).CanPwn 0 → e.Target ≠ 1) :=
  ⟨by decide,
   (c9_absent_sid_no_edges noSidOf demoAnalyzers [0] 0 1 (by decide) (by decide) (by decide)).1⟩

/-! ## Pre-processing pass (`main.go` lines 370-385)

The pass iterates all objects; for each it first runs the membership
resolver (`object.MemberOf()`, whose code is outside the provided sources
and is modelled as an arbitrary membership-monotone state transformer) and
then, for User / Computer / ManagedServiceAccount objects, registers them
on the synthetic Everyone and Authenticated Users groups. -/

/-- Derived object classification (`Object.Type()`); the attribute-based
derivation rules are outside the provided sources, so objects carry their
classification directly. -/
inductive ObjectType where
  | User
  | Computer
  | Group
  | ManagedServiceAccount
  | Trust
  | Other
deriving DecidableEq, Repr

/-- Membership state: per object id its `memberof` group list, and per
group id its reverse transitive-member list. -/
structure MState where
  memberof : Nat → List Nat
  members : Nat → List Nat

/-- A state transformer that never removes an existing `memberof` or
reverse-member entry (appends only), as the membership resolver does. -/
def MembershipMonotone (f : Nat → MState → MState) : Prop :=
  ∀ oid st i x, (x ∈ st.memberof i → x ∈ (f oid st).memberof i) ∧
    (x ∈ st.members i → x ∈ (f oid st).members i)

/-- One iteration of the pre-processing loop body for object `oid`:
`object.MemberOf()` (the `resolve` parameter; modelled from the spec, its
code is not in the provided sources), then the crude special handling —
`everyone.imamemberofyou(object)`, `authenticatedusers.imamemberofyou(object)`
and `object.memberof = append(object.memberof, everyone, authenticatedusers)`
for User / Computer / ManagedServiceAccount objects. -/
def preProcessStep (typeOf : Nat → ObjectType) (resolve : Nat → MState → MState)
    (everyone authusers : Nat) (st : MState) (oid : Nat) : MState :=
  let st1 := resolve oid st
  if typeOf oid = ObjectType.User ∨ typeOf oid = ObjectType.Computer ∨
      typeOf oid = ObjectType.ManagedServiceAccount then
    let st2 : MState :=
      { st1 with members := fun i => if i = everyone then st1.members i ++ [oid] else st1.members i }
    let st3 : MState :=
      { st2 with members := fun i => if i = authusers then st2.members i ++ [oid] else st2.members i }
    { st3 with memberof := fun i => if i = oid then st3.memberof i ++ [everyone, authusers] else st3.memberof i }
  else st1

/-- The whole pre-processing pass over the enumerated objects. -/
def preProcessPass (typeOf : Nat → ObjectType) (resolve : Nat → MState → MState)
    (everyone authusers : Nat) (oids : List Nat) (st : MState) : MState :=
  oids.foldl (preProcessStep typeOf resolve everyone authusers) st

theorem mem_ite_append {α : Type} {c : Prop} [Decidable c] {x : α} {l y : List α}
    (h : x ∈ l) : x ∈ (if c then l ++ y else l) := by
  split
  · exact List.mem_append_left _ h
  · exact h

theorem preProcessStep_mono (typeOf : Nat → ObjectType) (resolve : Nat → MState → MState)
    (hres : MembershipMonotone resolve) (everyone authusers : Nat) (st : MState) (oid : Nat) :
    ∀ i x, (x ∈ st.memberof i → x ∈ (preProcessStep typeOf resolve everyone authusers st oid).memberof i) ∧
      (x ∈ st.members i → x ∈ (preProcessStep typeOf resolve everyone authusers st oid).members i) := by
  intro i x
  unfold preProcessStep
  by_cases ht : typeOf oid = ObjectType.User ∨ typeOf oid = ObjectType.Computer ∨
      typeOf oid = ObjectType.ManagedServiceAccount
  · simp only [ht, if_true]
    refine ⟨fun hx => ?_, fun hx => ?_⟩
    · exact mem_ite_append ((hres oid st i x).1 hx)
    · exact mem_ite_append (mem_ite_append ((hres oid st i x).2 hx))
  · simp only [ht, if_false]
    exact hres oid st i x

theorem preProcessPass_mono (typeOf : Nat → ObjectType) (resolve : Nat → MState → MState)
    (hres : MembershipMonotone resolve) (everyone authusers : Nat) (oids : List Nat)
    (st : MState) :
    ∀ i x, (x ∈ st.memberof i → x ∈ (preProcessPass typeOf resolve everyone authusers oids st).memberof i) ∧
      (x ∈ st.members i → x ∈ (preProcessPass typeOf resolve everyone authusers oids st).members i) := by
  induction oids generalizing st with
  | nil => intro i x; exact ⟨id, id⟩
  | cons o os ih =>
    intro i x
    have hstep := preProcessStep_mono typeOf resolve hres everyone authusers st o i x
    have hrest := ih (preProcessStep typeOf resolve everyone authusers st o) i x
    exact ⟨fun hx => hrest.1 (hstep.1 hx), fun hx => hrest.2 (hstep.2 hx)⟩

theorem preProcessStep_registers (typeOf : Nat → ObjectType) (resolve : Nat → MState → MState)
    (everyone authusers : Nat) (st : MState) (oid : Nat)
    (ht : typeOf oid = ObjectType.User ∨ typeOf oid = ObjectType.Computer ∨
      typeOf oid = ObjectType.ManagedServiceAccount) :
    everyone ∈ (preProcessStep typeOf resolve everyone authusers st oid).memberof oid ∧
    authusers ∈ (preProcessStep typeOf resolve everyone authusers st oid).memberof oid ∧
    oid ∈ (preProcessStep typeOf resolve everyone authusers st oid).members everyone ∧
    oid ∈ (preProcessStep typeOf resolve everyone authusers st oid).members authusers := by
  unfold preProcessStep
  simp only [ht, if_true]
  refine ⟨by simp, by simp, ?_, ?_⟩
  · by_cases ha : everyone = authusers <;> simp [ha]
  · simp

/-! ## Claim C7 -/

/-- Claim C7: after the pre-processing pass every enumerated object whose
derived type is User, Computer or ManagedServiceAccount carries both
synthetic groups (the Everyone and Authenticated Users objects obtained by
`FindOrAddSID` before the loop) in its `memberof`, and appears in each
group's reverse-membership list, whatever the membership resolver did. -/
theorem c7_everyone_membership (typeOf : Nat → ObjectType) (resolve : Nat → MState → MState)
    (hres : MembershipMonotone resolve) (everyone authusers : Nat) (oids : List Nat)
    (st : MState) (oid : Nat) (hin : oid ∈ oids)
    (ht : typeOf oid = ObjectType.User ∨ typeOf oid = ObjectType.Computer ∨
      typeOf oid = ObjectType.ManagedServiceAccount) :
    everyone ∈ (preProcessPass typeOf resolve everyone authusers oids st).memberof oid ∧
    authusers ∈ (preProcessPass typeOf resolve everyone authusers oids st).memberof oid ∧
    oid ∈ (preProcessPass typeOf resolve everyone authusers oids st).members everyone ∧
    oid ∈ (preProcessPass typeOf resolve everyone authusers oids st).members authusers := by
  induction oids generalizing st with
  | nil => cases hin
  | cons o os ih =>
    rcases List.mem_cons.mp hin with rfl | hin2
    · have hreg := preProcessStep_registers typeOf resolve everyone authusers st oid ht
      have hmon := preProcessPass_mono typeOf resolve hres everyone authusers os
        (preProcessStep typeOf resolve everyone authusers st oid)
      exact ⟨(hmon oid everyone).1 hreg.1, (hmon oid authusers).1 hreg.2.1,
        (hmon everyone oid).2 hreg.2.2.1, (hmon authusers oid).2 hreg.2.2.2⟩
    · exact ih (preProcessStep typeOf resolve everyone authusers st o) hin2

/-- Classification used by the C7 witness: every object is a User. -/
def demoTypeOf : Nat → ObjectType := fun _ => ObjectType.User

/-- Identity membership resolver used by the C7 witness. -/
def demoResolve : Nat → MState → MState := fun _ st => st

/-- Membership state with no recorded memberships. -/
def emptyMState : MState where
  memberof := fun _ => []
  members := fun _ => []

/-- Witness for C7 at a concrete one-object store with group ids 100 / 101. -/
theorem c7_everyone_membership_witness :
    100 ∈ (preProcessPass demoTypeOf demoResolve 100 101 [0] emptyMState).memberof 0 ∧
    101 ∈ (preProcessPass demoTypeOf demoResolve 100 101 [0] emptyMState).memberof 0 ∧
    0 ∈ (preProcessPass demoTypeOf demoResolve 100 101 [0] emptyMState).members 100 ∧
    0 ∈ (preProcessPass demoTypeOf demoResolve 100 101 [0] emptyMState).members 101 :=
  c7_everyone_membership demoTypeOf demoResolve (fun _ _ _ _ => ⟨id, id⟩) 100 101 [0]
    emptyMState 0 (by decide) (Or.inl rfl)

/-! ## Cache-file load loop (`main.go` lines 315-332)

The msgpack record decoder is an external collaborator; it is modelled
from the spec's contract (§6): records can be decoded in stream order
until end-of-stream, and a short/truncated final record counts as ordinary
end-of-stream.  Record contents are irrelevant to the loop and are
abstracted to numeric ids. -/

/-- One framed chunk of the cache stream as the decoder sees it: a
decodable record, a short/truncated final record, or garbage bytes. -/
inductive Chunk where
  | record (r : Nat)
  | truncated
  | bad
deriving DecidableEq, Repr

/-- Decode error causes distinguished by the loop (`msgp.Cause(err)`). -/
inductive DecodeCause where
  | endOfStream
  | malformed
deriving DecidableEq, Repr

/-- Modelled from the spec: `rawObject.DecodeMsg(d)` on the next chunk of
the stream.  End of stream and a short/truncated final record both
surface the end-of-stream cause; garbage surfaces a malformed cause. -/
def decodeChunk : Option Chunk → Except DecodeCause Nat
  | none => .error .endOfStream
  | some (.record r) => .ok r
  | some .truncated => .error .endOfStream
  | some .bad => .error .malformed

/-- Outcome of the load: the loaded store contents, or the
`log.Fatal` abort on a decode error that is not end-of-stream. -/
inductive LoadResult where
  | ok (store : List Nat)
  | fatal
deriving DecidableEq, Repr

/-- The load loop of `main.go:316-332`: decode the next record; on success
add it to the store and continue; on an end-of-stream cause stop normally;
on any other decode error abort fatally. -/
def loadLoop : List Chunk → List Nat → LoadResult
  | stream, acc =>
    match stream, decodeChunk stream.head? with
    | _, .error .endOfStream => .ok acc
    | _, .error .malformed => .fatal
    | _ :: rest, .ok r => loadLoop rest (acc ++ [r])
    | [], .ok _ => .ok acc

theorem loadLoop_append (rs : List Nat) :
    ∀ (t : List Chunk) (acc : List Nat),
      loadLoop (rs.map Chunk.record ++ t) acc = loadLoop t (acc ++ rs) := by
  induction rs with
  | nil => intro t acc; simp
  | cons r rest ih =>
    intro t acc
    have : loadLoop ((r :: rest).map Chunk.record ++ t) acc
        = loadLoop (rest.map Chunk.record ++ t) (acc ++ [r]) := by
      simp [loadLoop, decodeChunk]
    rw [this, ih t (acc ++ [r])]
    simp

/-! ## Claim C8 -/

/-- Claim C8: a cache stream consisting of well-formed records is loaded
completely and in stream order, both when it ends cleanly and when it ends
in a short/truncated final record — the truncated record terminates the
load normally (no fatal error), exactly like end-of-stream. -/
theorem c8_cache_load (rs : List Nat) (junk : List Chunk) :
    loadLoop (rs.map Chunk.record) [] = LoadResult.ok rs ∧
    loadLoop (rs.map Chunk.record ++ Chunk.truncated :: junk) [] = LoadResult.ok rs := by
  constructor
  · have := loadLoop_append rs [] []
    simpa [loadLoop, decodeChunk] using this
  · have := loadLoop_append rs (Chunk.truncated :: junk) []
    simpa [loadLoop, decodeChunk] using this

/-! ## Known-SID injection (`main.go` lines 339-356)

The object store implementation is outside the provided sources; `FindSID`
and `Add` are modelled from spec §4.3 (hash-indexed lookup by SID;
`add` fails on a duplicate distinguished name, an Integrity-Violation that
is fatal to the load).  SIDs are their string rendering. -/

/-- A stored directory object, reduced to the fields the injection step
touches: distinguished name, SID, and the attribute map set on
placeholders. -/
structure StoreObj where
  DistinguishedName : String
  sid : String
  Attributes : List (String × List String)
deriving DecidableEq, Repr

/-- The object store as an insertion-ordered collection. -/
structure Store where
  objs : List StoreObj
deriving DecidableEq, Repr

/-- Modelled from the spec: `AllObjects.FindSID` — lookup of an object by
its SID, an explicit "absent" result when it misses. -/
def FindSID (st : Store) (s : String) : Option StoreObj :=
  st.objs.find? (fun o => o.sid == s)

/-- Modelled from the spec: `AllObjects.Add` — registers a new object;
fails (Integrity-Violation, fatal to the load) if the distinguished name
is already present. -/
def AddObject (st : Store) (o : StoreObj) : Option Store :=
  if st.objs.any (fun p => p.DistinguishedName == o.DistinguishedName) then none
  else some ⟨st.objs ++ [o]⟩

/-- The minimal placeholder object built at `main.go:346-354` for a missing
well-known SID. -/
def knownSIDPlaceholder (sid name : String) : StoreObj where
  DistinguishedName := "CN=" ++ name ++ ",DN=microsoft-builtin"
  sid := sid
  Attributes := [("name", [name]), ("objectSid", [sid]),
    ("objectClass", ["person", "user", "top"]), ("objectCategory", ["Group"])]

/-- One iteration of the known-SID loop: if an object with this SID exists
the store is untouched, otherwise the placeholder is added. -/
def injectStep (s : Store) (kv : String × String) : Option Store :=
  match FindSID s kv.1 with
  | some _ => some s
  | none => AddObject s (knownSIDPlaceholder kv.1 kv.2)

/-- The whole known-SID injection pass over the `knownsids` table. -/
def injectKnownSIDs (known : List (String × String)) (st : Store) : Option Store :=
  known.foldl (fun ost kv => ost.bind (fun s => injectStep s kv)) (some st)

theorem injectFold_none (known : List (String × String)) :
    known.foldl (fun ost kv => ost.bind (fun s => injectStep s kv)) none = none := by
  induction known with
  | nil => rfl
  | cons kv rest ih => simpa using ih

theorem FindSID_mono (st : Store) (more : List StoreObj) (s : String) (o : StoreObj)
    (h : FindSID st s = some o) : FindSID ⟨st.objs ++ more⟩ s = some o := by
  unfold FindSID at h ⊢
  rw [List.find?_append, h]
  rfl

theorem injectStep_spec (s : Store) (kv : String × String) (s1 : Store)
    (h : injectStep s kv = some s1) :
    (∃ added, s1.objs = s.objs ++ added) ∧ FindSID s1 kv.1 ≠ none ∧
    (∀ q o, FindSID s q = some o → FindSID s1 q = some o) ∧
    (FindSID s kv.1 ≠ none → s1 = s) := by
  unfold injectStep at h
  cases hf : FindSID s kv.1 with
  | some o =>
    rw [hf] at h
    cases h
    exact ⟨⟨[], by simp⟩, by rw [hf]; exact fun hc => Option.noConfusion hc,
      fun q o hq => hq, fun _ => rfl⟩
  | none =>
    rw [hf] at h
    unfold AddObject at h
    by_cases hd : s.objs.any (fun p => p.DistinguishedName == (knownSIDPlaceholder kv.1 kv.2).DistinguishedName)
    · rw [if_pos hd] at h; exact absurd h (by simp)
    · rw [if_neg hd] at h
      cases h
      refine ⟨⟨[knownSIDPlaceholder kv.1 kv.2], rfl⟩, ?_, ?_, ?_⟩
      · unfold FindSID at hf ⊢
        rw [List.find?_append, hf]
        simp [knownSIDPlaceholder]
      · intro q o hq
        exact FindSID_mono s [knownSIDPlaceholder kv.1 kv.2] q o hq
      · intro hc; exact absurd rfl hc

/-! ## Claim C10 -/

/-- Claim C10: when the known-SID injection pass completes, (a) every
object findable by SID beforehand is still found unchanged, (b) every
well-known SID now resolves to some object, (c) the pass only appended
placeholder objects, and (d) if every well-known SID was already present
the store is left entirely unchanged. -/
theorem c10_known_sid_injection (known : List (String × String)) (st st' : Store)
    (h : injectKnownSIDs known st = some st') :
    (∀ q o, FindSID st q = some o → FindSID st' q = some o) ∧
    (∀ kv ∈ known, FindSID st' kv.1 ≠ none) ∧
    (∃ added, st'.objs = st.objs ++ added) ∧
    ((∀ kv ∈ known, FindSID st kv.1 ≠ none) → st' = st) := by
  induction known generalizing st with
  | nil =>
    cases h
    exact ⟨fun q o hq => hq, fun kv hkv => absurd hkv (List.not_mem_nil kv),
      ⟨[], by simp⟩, fun _ => rfl⟩
  | cons kv rest ih =>
    have hstep : injectKnownSIDs (kv :: rest) st
        = rest.foldl (fun ost p => ost.bind (fun s => injectStep s p)) (injectStep st kv) := rfl
    rw [hstep] at h
    cases h1 : injectStep st kv with
    | none => rw [h1] at h; exact absurd (injectFold_none rest ▸ h) (by rw [injectFold_none rest] at h; simp at h)
    | some s1 =>
      rw [h1] at h
      have hrest := ih s1 h
      have hsp := injectStep_spec st kv s1 h1
      refine ⟨?_, ?_, ?_, ?_⟩
      · intro q o hq
        exact hrest.1 q o (hsp.2.2.1 q o hq)
      · intro p hp
        rcases List.mem_cons.mp hp with rfl | hp2
        · cases hfs : FindSID s1 p.1 with
          | none => exact absurd hfs hsp.2.1
          | some o => intro hc; rw [hrest.1 p.1 o hfs] at hc; exact Option.noConfusion hc
        · exact hrest.2.1 p hp2
      · rcases hsp.1 with ⟨a1, ha1⟩
        rcases hrest.2.2.1 with ⟨a2, ha2⟩
        exact ⟨a1 ++ a2, by rw [ha2, ha1, List.append_assoc]⟩
      · intro hall
        have hs1 : s1 = st := hsp.2.2.2 (hall kv (List.mem_cons_self kv rest))
        subst hs1
        exact hrest.2.2.2 (fun p hp => hall p (List.mem_cons_of_mem kv hp))

/-- Witness for C10: injecting one well-known SID into an empty store
yields a store in which that SID resolves. -/
theorem c10_known_sid_injection_witness :
    FindSID ⟨[knownSIDPlaceholder "S-1-5-32-544" "Administrators"]⟩ "S-1-5-32-544" ≠ none :=
  (c10_known_sid_injection [("S-1-5-32-544", "Administrators")] ⟨[]⟩
    ⟨[knownSIDPlaceholder "S-1-5-32-544" "Administrators"]⟩ (by decide)).2.1
    ("S-1-5-32-544", "Administrators") (by decide)

/-! ## Security-descriptor decoder (spec §4.2) and LAPS analyzer
(`main.go` lines 466-493)

The decoder implementation is outside the provided sources; it is
modelled from the spec: input is a raw binary blob (bytes as `Nat`s),
output a `SecurityDescriptor` or a typed decode error (malformed header /
truncated ACE / unsupported revision); multi-byte integers are
little-endian, the ACE list is length-prefixed, the object-type GUID is
present only on object-specific ACE types and is kept in the directory's
own 16-byte encoding. -/

/-- Byte of a blob, `none` when reading past the end. -/
def readByte (b : List Nat) (i : Nat) : Option Nat :=
  b.get? i

/-- Little-endian read of `n` bytes starting at offset `i`. -/
def readLE (b : List Nat) (i : Nat) : Nat → Option Nat
  | 0 => some 0
  | n + 1 => do
    let lo ← readByte b i
    let hi ← readLE b (i + 1) n
    pure (lo + 256 * hi)

/-- Big-endian read of `n` bytes starting at offset `i` (SID identifier
authority). -/
def readBE (b : List Nat) (i : Nat) : Nat → Option Nat
  | 0 => some 0
  | n + 1 => do
    let hi ← readByte b i
    let rest ← readBE b (i + 1) n
    pure (hi * 256 ^ n + rest)

/-- Raw copy of `n` bytes starting at offset `i` (GUID payloads). -/
def readBytes (b : List Nat) (i : Nat) : Nat → Option (List Nat)
  | 0 => some []
  | n + 1 => do
    let x ← readByte b i
    let rest ← readBytes b (i + 1) n
    pure (x :: rest)

/-- A decoded binary SID: revision, 48-bit identifier authority, and the
32-bit sub-authority list. -/
structure BinSID where
  Revision : Nat
  IdentifierAuthority : Nat
  SubAuthorities : List Nat
deriving DecidableEq, Repr

/-- Sub-authority array of a SID: `count` little-endian 32-bit values. -/
def parseSubAuths (b : List Nat) (i : Nat) : Nat → Option (List Nat)
  | 0 => some []
  | n + 1 => do
    let v ← readLE b i 4
    let rest ← parseSubAuths b (i + 4) n
    pure (v :: rest)

/-- Decode the SID starting at offset `i`; returns the SID and its encoded
byte length. -/
def parseSIDAt (b : List Nat) (i : Nat) : Option (BinSID × Nat) := do
  let rev ← readByte b i
  let cnt ← readByte b (i + 1)
  let auth ← readBE b (i + 2) 6
  let subs ← parseSubAuths b (i + 8) cnt
  pure (⟨rev, auth, subs⟩, 8 + 4 * cnt)

/-- Typed decode failures of the security-descriptor decoder (spec §4.2:
malformed header, truncated ACE, unsupported revision). -/
inductive SDError where
  | malformedHeader
  | truncatedACE
  | unsupportedRevision
deriving DecidableEq, Repr

/-- Lift an optional read into the decoder's error monad. -/
def need {α : Type} (o : Option α) (e : SDError) : Except SDError α :=
  match o with
  | some a => .ok a
  | none => .error e

/-- ACE type tag for allow-type object-specific entries
(`ACETYPE_ACCESS_ALLOWED_OBJECT`). -/
def ACETYPE_ACCESS_ALLOWED_OBJECT : Nat := 5

/-- ACE type tag for deny-type object-specific entries. -/
def ACETYPE_ACCESS_DENIED_OBJECT : Nat := 6

/-- Rights-mask bit for the directory "read property" right
(`RIGHT_DS_READ_PROPERTY`). -/
def RIGHT_DS_READ_PROPERTY : Nat := 16

/-- Control-word flag: DACL present. -/
def SE_DACL_PRESENT : Nat := 4

/-- Control-word flag: SACL present. -/
def SE_SACL_PRESENT : Nat := 16

/-- Object-ACE flag: object-type GUID present. -/
def ACE_OBJECT_TYPE_PRESENT : Nat := 1

/-- Object-ACE flag: inherited-object-type GUID present. -/
def ACE_INHERITED_OBJECT_TYPE_PRESENT : Nat := 2

/-- A decoded access-control entry: type, flags, rights mask, principal
SID and — only for object-specific types — the optional object-type
GUID in the directory's 16-byte encoding. -/
structure ACE where
  AceType : Nat
  AceFlags : Nat
  Mask : Nat
  SID : BinSID
  ObjectType : Option (List Nat)
deriving DecidableEq, Repr

/-- Decode one ACE at offset `i`; returns the entry plus the offset of the
next entry (via the entry's length field). -/
def parseACEAt (b : List Nat) (i : Nat) : Except SDError (ACE × Nat) := do
  let t ← need (readByte b i) .truncatedACE
  let fl ← need (readByte b (i + 1)) .truncatedACE
  let size ← need (readLE b (i + 2) 2) .truncatedACE
  if t = ACETYPE_ACCESS_ALLOWED_OBJECT ∨ t = ACETYPE_ACCESS_DENIED_OBJECT then do
    let mask ← need (readLE b (i + 4) 4) .truncatedACE
    let oflags ← need (readLE b (i + 8) 4) .truncatedACE
    let p ←
      if oflags &&& ACE_OBJECT_TYPE_PRESENT ≠ 0 then do
        let g ← need (readBytes b (i + 12) 16) .truncatedACE
        pure (some g, i + 28)
      else pure ((none : Option (List Nat)), i + 12)
    let off2 ←
      if oflags &&& ACE_INHERITED_OBJECT_TYPE_PRESENT ≠ 0 then do
        let _ ← need (readBytes b p.2 16) .truncatedACE
        pure (p.2 + 16)
      else pure p.2
    let sp ← need (parseSIDAt b off2) .truncatedACE
    pure (⟨t, fl, mask, sp.1, p.1⟩, i + size)
  else do
    let mask ← need (readLE b (i + 4) 4) .truncatedACE
    let sp ← need (parseSIDAt b (i + 8)) .truncatedACE
    pure (⟨t, fl, mask, sp.1, none⟩, i + size)

/-- Decode `n` consecutive ACEs starting at offset `i`. -/
def parseACEs (b : List Nat) (i : Nat) : Nat → Except SDError (List ACE)
  | 0 => .ok []
  | n + 1 => do
    let an ← parseACEAt b i
    let rest ← parseACEs b an.2 n
    pure (an.1 :: rest)

/-- Decode the length-prefixed ACE list (ACL) at offset `i`. -/
def parseACLAt (b : List Nat) (i : Nat) : Except SDError (List ACE) := do
  let _rev ← need (readByte b i) .truncatedACE
  let _size ← need (readLE b (i + 2) 2) .truncatedACE
  let count ← need (readLE b (i + 4) 2) .truncatedACE
  parseACEs b (i + 8) count

/-- A decoded security descriptor: owner and group SIDs plus the ordered
discretionary and system ACE lists (empty when the respective list is
absent). -/
structure SecurityDescriptor where
  Owner : Option BinSID
  Group : Option BinSID
  DACL : List ACE
  SACL : List ACE
deriving DecidableEq, Repr

/-- Modelled from the spec: the security-descriptor decoder — pure
function from a raw blob to a `SecurityDescriptor` or a typed decode
error; the header is revision, control word and the four component
offsets, each component decoded only when its offset (and for ACLs its
control-flag) says it is present. -/
def parseSecurityDescriptor (b : List Nat) : Except SDError SecurityDescriptor :=
  match readByte b 0 with
  | none => .error .malformedHeader
  | some rev =>
    if rev ≠ 1 then .error .unsupportedRevision
    else do
      let control ← need (readLE b 2 2) .malformedHeader
      let offOwner ← need (readLE b 4 4) .malformedHeader
      let offGroup ← need (readLE b 8 4) .malformedHeader
      let offSacl ← need (readLE b 12 4) .malformedHeader
      let offDacl ← need (readLE b 16 4) .malformedHeader
      let owner ←
        if offOwner ≠ 0 then do
          let sp ← need (parseSIDAt b offOwner) .malformedHeader
          pure (some sp.1)
        else pure (none : Option BinSID)
      let group ←
        if offGroup ≠ 0 then do
          let sp ← need (parseSIDAt b offGroup) .malformedHeader
          pure (some sp.1)
        else pure (none : Option BinSID)
      let sacl ←
        if control &&& SE_SACL_PRESENT ≠ 0 ∧ offSacl ≠ 0 then parseACLAt b offSacl
        else pure ([] : List ACE)
      let dacl ←
        if control &&& SE_DACL_PRESENT ≠ 0 ∧ offDacl ≠ 0 then parseACLAt b offDacl
        else pure ([] : List ACE)
      pure ⟨owner, group, dacl, sacl⟩

/-! ### LAPS analyzer (`main.go` lines 466-493) -/

/-- A loaded directory object as the LAPS analyzer sees it: derived
classification (`Object.Type()`, whose attribute-based derivation is
outside the provided sources and is carried directly), the
`ms-Mcs-AdmPwdExpirationTime` attribute values, the raw security
descriptor blob, and the optional binary SID. -/
structure LObject where
  DistinguishedName : String
  objType : ObjectType
  admPwdExpirationTime : List String
  sdBytes : List Nat
  sid : Option BinSID
deriving DecidableEq, Repr

/-- The object store as seen through SID resolution. -/
abbrev LStore := List LObject

/-- Modelled from the spec: `AllObjects.FindOrAddSID` — resolve a SID to
its object, creating and registering a minimal placeholder when no object
with that SID exists. -/
def FindOrAddSID (st : LStore) (s : BinSID) : LObject × LStore :=
  match st.find? (fun o => o.sid == some s) with
  | some o => (o, st)
  | none =>
    let o : LObject := ⟨"", ObjectType.Other, [], [], some s⟩
    (o, st ++ [o])

/-- The DACL-entry condition of `main.go:486`: allow-type object-specific
entry, carrying the read-property right, whose object-type GUID is the
watched schema GUID. -/
def lapsACEMatches (objectGUID : List Nat) (a : ACE) : Bool :=
  a.AceType == ACETYPE_ACCESS_ALLOWED_OBJECT &&
    (a.Mask &&& RIGHT_DS_READ_PROPERTY) != 0 &&
    a.ObjectType == some objectGUID

/-- The scan loop of `main.go:485-489`: walk the DACL entries in order and
append the resolved-or-created principal for each matching entry. -/
def lapsACLScan (objectGUID : List Nat) (entries : List ACE) (results : List LObject)
    (st : LStore) : List LObject × LStore :=
  match entries with
  | [] => (results, st)
  | a :: rest =>
    if lapsACEMatches objectGUID a then
      let p := FindOrAddSID st a.SID
      lapsACLScan objectGUID rest (results ++ [p.1]) p.2
    else lapsACLScan objectGUID rest results st

/-- The LAPS `ObjectAnalyzer` registered at `main.go:468-492`: only for
Computer objects that carry the LAPS expiration-time attribute; a
security-descriptor decode failure yields no counterparts; otherwise the
DACL is scanned for matching entries. -/
def lapsObjectAnalyzer (objectGUID : List Nat) (o : LObject) (st : LStore) :
    List LObject × LStore :=
  if o.objType ≠ ObjectType.Computer then ([], st)
  else if o.admPwdExpirationTime.length = 0 then ([], st)
  else
    match parseSecurityDescriptor o.sdBytes with
    | .error _ => ([], st)
    | .ok sd => lapsACLScan objectGUID sd.DACL [] st

theorem lapsACLScan_cons (g : List Nat) (a : ACE) (rest : List ACE)
    (results : List LObject) (st : LStore) :
    lapsACLScan g (a :: rest) results st =
      if lapsACEMatches g a then
        lapsACLScan g rest (results ++ [(FindOrAddSID st a.SID).1]) (FindOrAddSID st a.SID).2
      else lapsACLScan g rest results st := rfl

theorem lapsACLScan_no_match (g : List Nat) (entries : List ACE) :
    ∀ (results : List LObject) (st : LStore),
      entries.filter (lapsACEMatches g) = [] →
      lapsACLScan g entries results st = (results, st) := by
  induction entries with
  | nil => intro results st _; rfl
  | cons a rest ih =>
    intro results st hf
    rw [List.filter_cons] at hf
    by_cases hm : lapsACEMatches g a
    · rw [if_pos hm] at hf; exact absurd hf (by simp)
    · rw [if_neg hm] at hf
      rw [lapsACLScan_cons, if_neg hm]
      exact ih results st (by simpa using hf)

theorem lapsACLScan_one_match (g : List Nat) (entries : List ACE) :
    ∀ (results : List LObject) (st : LStore) (a : ACE),
      entries.filter (lapsACEMatches g) = [a] →
      lapsACLScan g entries results st
        = (results ++ [(FindOrAddSID st a.SID).1], (FindOrAddSID st a.SID).2) := by
  induction entries with
  | nil => intro results st a hf; exact absurd hf (by simp)
  | cons e rest ih =>
    intro results st a hf
    rw [List.filter_cons] at hf
    by_cases hm : lapsACEMatches g e
    · rw [if_pos hm] at hf
      have hea : e = a := (List.cons_eq_cons.mp hf).1
      have hrest : rest.filter (lapsACEMatches g) = [] := by
        simpa using (List.cons_eq_cons.mp hf).2
      rw [lapsACLScan_cons, if_pos hm, lapsACLScan_no_match g rest _ _ hrest, hea]
    · rw [if_neg hm] at hf
      rw [lapsACLScan_cons, if_neg hm]
      exact ih results st a (by simpa using hf)

/-! ## Claim C5 -/

/-- Claim C5: a Computer object with a non-empty LAPS expiration attribute
whose security descriptor decodes to a DACL containing exactly one
allow-type object-specific ACE granting read-property on the watched GUID
to SID `S` makes the LAPS analyzer emit exactly one counterpart — the
object resolved-or-created for `S`; non-Computer objects and objects
lacking the attribute yield no counterparts. -/
theorem c5_laps_analyzer :
    (∀ (g : List Nat) (o : LObject) (st : LStore) (sd : SecurityDescriptor) (a : ACE) (S : BinSID),
      o.objType = ObjectType.Computer →
      o.admPwdExpirationTime ≠ [] →
      parseSecurityDescriptor o.sdBytes = .ok sd →
      sd.DACL.filter (lapsACEMatches g) = [a] →
      a.SID = S →
      lapsObjectAnalyzer g o st = ([(FindOrAddSID st S).1], (FindOrAddSID st S).2)) ∧
    (∀ (g : List Nat) (o : LObject) (st : LStore),
      o.objType ≠ ObjectType.Computer ∨ o.admPwdExpirationTime = [] →
      lapsObjectAnalyzer g o st = ([], st)) := by
  constructor
  · intro g o st sd a S h1 h2 h3 h4 h5
    have hred : lapsObjectAnalyzer g o st = lapsACLScan g sd.DACL [] st := by
      unfold lapsObjectAnalyzer
      rw [if_neg (by simp [h1]), if_neg (by simpa using h2), h3]
    rw [hred, lapsACLScan_one_match g sd.DACL [] st a h4, h5]
    simp
  · intro g o st h
    unfold lapsObjectAnalyzer
    rcases h with h | h
    · rw [if_pos h]
    · by_cases h1 : o.objType ≠ ObjectType.Computer
      · rw [if_pos h1]
      · rw [if_neg h1, if_pos (by simp [h])]

/-- Watched schema GUID used by the concrete witnesses. -/
def demoGUID : List Nat := [1, 2, 3, 4, 5, 6, 7, 8, 9, 10, 11, 12, 13, 14, 15, 16]

/-- A well-formed security-descriptor blob: revision-1 header with DACL
present at offset 20, one allow-type object-specific ACE carrying the
read-property right on `demoGUID` for SID S-1-5-32-544. -/
def lapsBlob : List Nat :=
  [1, 0, 4, 0, 0, 0, 0, 0, 0, 0, 0, 0, 0, 0, 0, 0, 20, 0, 0, 0] ++
  [2, 0, 52, 0, 1, 0, 0, 0] ++
  [5, 0, 44, 0, 16, 0, 0, 0, 1, 0, 0, 0] ++ demoGUID ++
  [1, 2, 0, 0, 0, 0, 0, 5, 32, 0, 0, 0, 32, 2, 0, 0]

/-- The single ACE decoded from `lapsBlob`. -/
def lapsACE : ACE where
  AceType := 5
  AceFlags := 0
  Mask := 16
  SID := ⟨1, 5, [32, 544]⟩
  ObjectType := some demoGUID

/-- The descriptor decoded from `lapsBlob`. -/
def lapsBlobSD : SecurityDescriptor where
  Owner := none
  Group := none
  DACL := [lapsACE]
  SACL := []

/-- The principal SID granted read-property in `lapsBlob` (S-1-5-32-544). -/
def demoLapsSID : BinSID := ⟨1, 5, [32, 544]⟩

/-- A Computer object with the LAPS expiration attribute and `lapsBlob` as
its security descriptor. -/
def demoComputer : LObject where
  DistinguishedName := "CN=PC1,DC=example,DC=com"
  objType := ObjectType.Computer
  admPwdExpirationTime := ["132500000000000000"]
  sdBytes := lapsBlob
  sid := some ⟨1, 5, [21]⟩

/-- Witness for C5: on `demoComputer` the LAPS analyzer emits exactly the
object resolved-or-created for S-1-5-32-544. -/
theorem c5_laps_analyzer_witness :
    lapsObjectAnalyzer demoGUID demoComputer []
      = ([(FindOrAddSID [] demoLapsSID).1], (FindOrAddSID [] demoLapsSID).2) :=
  c5_laps_analyzer.1 demoGUID demoComputer [] lapsBlobSD lapsACE demoLapsSID
    rfl (by decide) rfl (by decide) rfl

/-! ## Claim C6 -/

theorem runAnalyzers_empty (sidOf : Nat → String) (as : List PwnAnalyzerF) (oid : Nat)
    (st : AState) (h : ∀ a ∈ as, a.2 oid = []) : runAnalyzers sidOf as oid st = st := by
  induction as generalizing st with
  | nil => rfl
  | cons a rest ih =>
    have ha : a.2 oid = [] := h a (List.mem_cons_self a rest)
    have hstep : runCounterparts sidOf a.1 oid (a.2 oid) st = st := by
      rw [ha]; rfl
    have : runAnalyzers sidOf (a :: rest) oid st
        = runAnalyzers sidOf rest oid (runCounterparts sidOf a.1 oid (a.2 oid) st) := rfl
    rw [this, hstep]
    exact ih st (fun b hb => h b (List.mem_cons_of_mem a hb))

/-- A Computer object with the LAPS attribute but a truncated
security-descriptor blob (header cut short after three bytes). -/
def badComputer : LObject where
  DistinguishedName := "CN=PC2,DC=example,DC=com"
  objType := ObjectType.Computer
  admPwdExpirationTime := ["132500000000000000"]
  sdBytes := [1, 0, 4]
  sid := some ⟨1, 5, [22]⟩

/-- Claim C6: a truncated blob makes the decoder surface a typed failure;
whenever decoding an object's security descriptor fails the LAPS analyzer
returns the empty counterpart sequence (and leaves the store untouched)
instead of an error; and an object for which every analyzer returns no
counterparts leaves the evaluation pass exactly as if the pass had run on
the remaining objects only. -/
theorem c6_malformed_sd :
    parseSecurityDescriptor badComputer.sdBytes = .error SDError.malformedHeader ∧
    (∀ (g : List Nat) (o : LObject) (st : LStore) (e : SDError),
      parseSecurityDescriptor o.sdBytes = .error e →
      lapsObjectAnalyzer g o st = ([], st)) ∧
    (∀ (sidOf : Nat → String) (as : List PwnAnalyzerF) (oid : Nat) (rest : List Nat) (st : AState),
      (∀ a ∈ as, a.2 oid = []) →
      evaluationPass sidOf as (oid :: rest) st = evaluationPass sidOf as rest st) := by
  refine ⟨rfl, ?_, ?_⟩
  · intro g o st e h
    unfold lapsObjectAnalyzer
    by_cases h1 : o.objType ≠ ObjectType.Computer
    · rw [if_pos h1]
    · rw [if_neg h1]
      by_cases h2 : o.admPwdExpirationTime.length = 0
      · rw [if_pos h2]
      · rw [if_neg h2, h]
  · intro sidOf as oid rest st h
    have : evaluationPass sidOf as (oid :: rest) st
        = evaluationPass sidOf as rest (runAnalyzers sidOf as oid st) := rfl
    rw [this, runAnalyzers_empty sidOf as oid st h]

/-- Witness for C6: the truncated-blob Computer yields no counterparts, and
an all-empty analyzer registry makes the pass on `[0]` coincide with the
pass on no objects. -/
theorem c6_malformed_sd_witness :
    lapsObjectAnalyzer demoGUID badComputer [] = ([], []) ∧
    evaluationPass demoSidOf [(7, fun _ => [])] [0] initState
      = evaluationPass demoSidOf [(7, fun _ => [])] [] initState :=
  ⟨c6_malformed_sd.2.1 demoGUID badComputer [] SDError.malformedHeader rfl,
   c6_malformed_sd.2.2 demoSidOf [(7, fun _ => [])] 0 [] initState (by decide)⟩

end Adalanche
